import Mathlib

/-!
Shallow embedding of the assignment-lifecycle core of the discord-bot
repository (src/models.py, src/selection_service.py, src/assignment_operations.py,
src/break_manager.py, src/assignment_scheduler.py).

Modelling conventions:
* UTC datetimes are modelled as `Nat` (seconds since epoch); `datetime.min`
  is second 0, so `last_comms_lead_at or datetime.min` is `Option.getD 0`.
* Discord user ids (strings of digits in the source) are modelled as `Nat`
  together with their total order; task names stay `String`.
* The SQLAlchemy store is one explicit state (`DB`) holding the durable
  rows.  Mutating an ORM row inside a session that commits is a functional
  update of the corresponding list entry; `db.rollback()` restores the
  state from before the operation.  A mutation on a row attached to a
  session that never commits is discarded on close (`get_db_session` is
  `autocommit=False` and never commits itself), so it is no store update
  at all.  Row order in the lists is insertion order, and `.first()` on a
  filtered query is `List.find?` of the translated predicate.
* JSON payloads of break requests carry a reason and an optional
  `duration_minutes` (`payload.get("duration_minutes", 15)` is `Option.getD 15`).
-/

namespace Bot

inductive AssignmentStatus where
  | PENDING_ACK
  | ACTIVE
  | COMPLETED
  | ENDED_EARLY
  | COVERING
  | PAUSED_BREAK
  | PAUSED_LUNCH
  deriving DecidableEq, Repr

/-- The `value` of the Python enum member (models.AssignmentStatus). -/
def AssignmentStatus.value : AssignmentStatus → String
  | .PENDING_ACK => "pending_ack"
  | .ACTIVE => "active"
  | .COMPLETED => "completed"
  | .ENDED_EARLY => "ended_early"
  | .COVERING => "covering"
  | .PAUSED_BREAK => "paused_break"
  | .PAUSED_LUNCH => "paused_lunch"

inductive ApprovalType where
  | EDIT
  | END_EARLY
  | BREAK15
  | LUNCH60
  deriving DecidableEq, Repr

inductive ApprovalStatus where
  | PENDING
  | APPROVED
  | DENIED
  | QUEUED_FOR_CAPACITY
  deriving DecidableEq, Repr

/-- models.User (the columns the scheduling core reads). -/
structure User where
  id : Nat
  display_name : String
  is_operator : Bool
  is_admin : Bool
  last_comms_lead_at : Option Nat
  deriving DecidableEq, Repr

/-- models.Assignment. -/
structure Assignment where
  id : Nat
  user_id : Nat
  shift_id : Nat
  template_id : Option Nat
  task_name : String
  params : List (String × String)
  status : AssignmentStatus
  hour_index : Nat
  started_at : Option Nat
  ends_at : Option Nat
  ended_at : Option Nat
  covering_for_user_id : Option Nat
  forced : Bool
  created_at : Nat
  deriving DecidableEq, Repr

/-- The JSON payload stored on a break/lunch ApprovalRequest. -/
structure BreakPayload where
  reason : String
  duration_minutes : Option Nat
  deriving DecidableEq, Repr

/-- models.ApprovalRequest. -/
structure ApprovalRequest where
  id : Nat
  user_id : Nat
  assignment_id : Nat
  type : ApprovalType
  requested_at : Nat
  payload : BreakPayload
  status : ApprovalStatus
  resolved_at : Option Nat
  resolver_id : Option Nat
  resolver_note : Option String
  deriving DecidableEq, Repr

/-- models.AuditLog rows (actor, action, target). -/
structure AuditLog where
  actor_id : Option Nat
  action : String
  target : Option String
  deriving DecidableEq, Repr

/-- models.Settings (the fields the core reads). -/
structure Settings where
  assignments_channel_id : Option Nat
  admin_channel_id : Option Nat
  min_on_duty : Nat
  deriving DecidableEq, Repr

/-- The transactional store: users, assignments, approval requests, audit log,
autoincrement counters and the singleton settings row. -/
structure DB where
  users : List User
  assignments : List Assignment
  requests : List ApprovalRequest
  audit : List AuditLog
  next_assignment_id : Nat
  next_request_id : Nat
  settings : Settings
  deriving DecidableEq, Repr

/-- Update the first list entry satisfying `p` (the row a `.first()` query
returned and the session then mutated). -/
def updateFirst (p : α → Bool) (f : α → α) : List α → List α
  | [] => []
  | x :: xs => if p x then f x :: xs else x :: updateFirst p f xs

/-- selection_service.SelectionService.check_minimum_staffing:
count ACTIVE/COVERING assignments excluding the requester and compare with
the staffing floor. -/
def check_minimum_staffing (current_active : List Assignment)
    (proposed_break_user_id : Nat) (min_required : Nat) : Bool :=
  let active_count := current_active.countP fun assignment =>
    (assignment.status == .ACTIVE || assignment.status == .COVERING)
      && assignment.user_id != proposed_break_user_id
  let would_violate := active_count < min_required
  !would_violate

/-- The number of ACTIVE/COVERING assignments in `l` owned by users other
than `uid` (the quantity the staffing check compares with the floor). -/
def activeExcludingCount (l : List Assignment) (uid : Nat) : Nat :=
  (l.filter fun a =>
    (a.status = AssignmentStatus.ACTIVE ∨ a.status = AssignmentStatus.COVERING)
      ∧ a.user_id ≠ uid).length

theorem check_minimum_staffing_iff (l : List Assignment) (u : Nat) (n : Nat) :
    check_minimum_staffing l u n = true ↔ n ≤ activeExcludingCount l u := by
  have hcount : activeExcludingCount l u = l.countP fun assignment =>
      (assignment.status == AssignmentStatus.ACTIVE
        || assignment.status == AssignmentStatus.COVERING)
        && assignment.user_id != u := by
    unfold activeExcludingCount
    rw [List.countP_eq_length_filter]
    congr 1
    apply List.filter_congr
    intro a _
    by_cases h1 : a.status = AssignmentStatus.ACTIVE
      <;> by_cases h2 : a.status = AssignmentStatus.COVERING
      <;> by_cases h3 : a.user_id = u <;> simp [h1, h2, h3]
  unfold check_minimum_staffing
  rw [← hcount]
  simp [Nat.not_lt]

/-- C4: `check_minimum_staffing(list, u, n)` is true iff the number of
ACTIVE/COVERING assignments in the list whose user differs from `u` is at
least `n`; in particular it is true with exactly `n` such assignments and
false with `n - 1` of them (for positive `n`). -/
theorem check_minimum_staffing_correct (l : List Assignment) (u : Nat) (n : Nat) :
    (check_minimum_staffing l u n = true ↔ n ≤ activeExcludingCount l u)
      ∧ (activeExcludingCount l u = n → check_minimum_staffing l u n = true)
      ∧ (1 ≤ n → activeExcludingCount l u = n - 1 →
          check_minimum_staffing l u n = false) := by
  refine ⟨check_minimum_staffing_iff l u n, ?_, ?_⟩
  · intro h
    exact (check_minimum_staffing_iff l u n).mpr (by omega)
  · intro hn h
    rcases hb : check_minimum_staffing l u n with _ | _
    · rfl
    · have := (check_minimum_staffing_iff l u n).mp hb
      omega

/-- Witness for C4 at a concrete staffing snapshot: two foreign active
assignments meet a floor of 2 and miss a floor of 3. -/
def wAsg (i uid : Nat) (st : AssignmentStatus) (task : String) : Assignment :=
  { id := i, user_id := uid, shift_id := 1, template_id := none,
    task_name := task, params := [], status := st, hour_index := 3,
    started_at := none, ends_at := none, ended_at := none,
    covering_for_user_id := none, forced := false, created_at := 0 }

/-- The Python sort key of `select_comms_lead`:
`(u.last_comms_lead_at or datetime.min, u.id)`. -/
def commsKey (u : User) : Nat × Nat :=
  (u.last_comms_lead_at.getD 0, u.id)

/-- The lexicographic key comparison under which Python `sorted` arranges
the operators in `select_comms_lead`. -/
def commsLe (a b : User) : Bool :=
  decide ((commsKey a).1 < (commsKey b).1
    ∨ ((commsKey a).1 = (commsKey b).1 ∧ (commsKey a).2 ≤ (commsKey b).2))

/-- selection_service.SelectionService.select_comms_lead: none on an empty
pool, the single operator on a singleton pool, otherwise the head of the
pool sorted by `(last_comms_lead_at or datetime.min, id)`. -/
def select_comms_lead : List User → Option User
  | [] => none
  | [u] => some u
  | u :: v :: rest => ((u :: v :: rest).mergeSort commsLe).head?

theorem commsLe_trans (a b c : User) : commsLe a b → commsLe b c → commsLe a c := by
  simp only [commsLe, decide_eq_true_eq]
  omega

theorem commsLe_total (a b : User) : commsLe a b || commsLe b a := by
  simp only [commsLe, Bool.or_eq_true, decide_eq_true_eq]
  omega

theorem commsLe_refl (a : User) : commsLe a a := by
  unfold commsLe
  exact decide_eq_true (Or.inr ⟨rfl, Nat.le_refl _⟩)

theorem pairwise_head_le {le : User → User → Bool}
    (hrefl : ∀ a, le a a = true) :
    ∀ {l : List User}, l.Pairwise (fun a b => le a b = true) →
      ∀ {u}, l.head? = some u → ∀ v ∈ l, le u v = true := by
  intro l hp u hu v hv
  cases l with
  | nil => simp at hu
  | cons x xs =>
    simp only [List.head?_cons, Option.some.injEq] at hu
    subst hu
    rcases List.mem_cons.mp hv with h | h
    · subst h; exact hrefl v
    · exact (List.pairwise_cons.mp hp).1 v h

/-- C9: `select_comms_lead` returns no selection on empty input; on nonempty
input it returns an operator from the input whose sort key
`(last_comms_lead_at treating none as earliest, id)` is lexicographically
minimal, so repeated calls on unchanged input pick the same operator. -/
theorem select_comms_lead_correct (operators : List User) :
    (operators = [] → select_comms_lead operators = none)
      ∧ (operators ≠ [] → ∃ u, select_comms_lead operators = some u)
      ∧ (∀ u, select_comms_lead operators = some u →
          u ∈ operators ∧ ∀ v ∈ operators,
            (commsKey u).1 < (commsKey v).1
              ∨ ((commsKey u).1 = (commsKey v).1 ∧ (commsKey u).2 ≤ (commsKey v).2)) := by
  refine ⟨?_, ?_, ?_⟩
  · intro h; subst h; rfl
  · intro hne
    match operators with
    | [] => exact absurd rfl hne
    | [u] => exact ⟨u, rfl⟩
    | u :: v :: rest =>
      match hm : List.mergeSort (u :: v :: rest) commsLe with
      | [] =>
        have hperm := List.mergeSort_perm (u :: v :: rest) commsLe
        rw [hm] at hperm
        exact absurd hperm.length_eq (by simp)
      | w :: ws => exact ⟨w, by simp [select_comms_lead, hm]⟩
  · intro u hu
    match operators with
    | [] => simp [select_comms_lead] at hu
    | [w] =>
      simp only [select_comms_lead, Option.some.injEq] at hu
      refine ⟨by simp [← hu], ?_⟩
      intro v hv
      have hv' : v = w := by simpa using hv
      rw [← hu, hv']
      exact Or.inr ⟨rfl, Nat.le_refl _⟩
    | w :: x :: rest =>
      simp only [select_comms_lead] at hu
      have hsorted : (List.mergeSort (w :: x :: rest) commsLe).Pairwise
          (fun a b => commsLe a b = true) :=
        List.sorted_mergeSort commsLe_trans commsLe_total (w :: x :: rest)
      have hmem : u ∈ List.mergeSort (w :: x :: rest) commsLe :=
        List.mem_of_mem_head? hu
      have humem : u ∈ w :: x :: rest := List.mem_mergeSort.mp hmem
      refine ⟨humem, ?_⟩
      intro v hv
      have hvmem : v ∈ List.mergeSort (w :: x :: rest) commsLe :=
        List.mem_mergeSort.mpr hv
      have hle : commsLe u v = true :=
        pairwise_head_le commsLe_refl hsorted hu v hvmem
      simpa only [commsLe, decide_eq_true_eq] using hle

/-- Witness for C9: on a concrete two-operator pool the never-served
operator is selected, and it is a member with minimal key. -/
def wUser (i : Nat) (t : Option Nat) : User :=
  { id := i, display_name := "op", is_operator := true, is_admin := false,
    last_comms_lead_at := t }

unseal List.merge List.mergeSort in
theorem select_comms_lead_correct_witness :
    wUser 4 none ∈ [wUser 3 (some 50), wUser 4 none]
      ∧ select_comms_lead [wUser 3 (some 50), wUser 4 none] = some (wUser 4 none) := by
  have h := (select_comms_lead_correct [wUser 3 (some 50), wUser 4 none]).2.2
    (wUser 4 none) (by decide)
  exact ⟨h.1, by decide⟩

theorem check_minimum_staffing_correct_witness :
    check_minimum_staffing
        [wAsg 1 5 .ACTIVE "Data Labelling", wAsg 2 6 .COVERING "Tool QC"] 7 2 = true
      ∧ check_minimum_staffing
        [wAsg 1 5 .ACTIVE "Data Labelling", wAsg 2 6 .COVERING "Tool QC"] 7 3 = false := by
  refine ⟨?_, ?_⟩
  · exact (check_minimum_staffing_correct
      [wAsg 1 5 .ACTIVE "Data Labelling", wAsg 2 6 .COVERING "Tool QC"] 7 2).2.1
      (by decide)
  · exact (check_minimum_staffing_correct
      [wAsg 1 5 .ACTIVE "Data Labelling", wAsg 2 6 .COVERING "Tool QC"] 7 3).2.2
      (by decide) (by decide)

theorem find?_updateFirst_self {p : α → Bool} {f : α → α}
    (hf : ∀ x, p x = true → p (f x) = true) :
    ∀ l : List α, (updateFirst p f l).find? p = (l.find? p).map f := by
  intro l
  induction l with
  | nil => rfl
  | cons x xs ih =>
    by_cases hp : p x = true
    · simp [updateFirst, hp, List.find?_cons, hf x hp]
    · simp only [updateFirst, Bool.not_eq_true] at hp ⊢
      simp [hp, List.find?_cons, ih]

theorem find?_updateFirst_other {p q : α → Bool} {f : α → α}
    (hq : ∀ x, p x = true → q x = false ∧ q (f x) = false) :
    ∀ l : List α, (updateFirst p f l).find? q = l.find? q := by
  intro l
  induction l with
  | nil => rfl
  | cons x xs ih =>
    by_cases hp : p x = true
    · simp [updateFirst, hp, List.find?_cons, (hq x hp).1, (hq x hp).2]
    · simp only [updateFirst, Bool.not_eq_true] at hp ⊢
      simp only [hp, Bool.false_eq_true, if_false, List.find?_cons]
      cases hqx : q x <;> simp [ih]

theorem updateFirst_of_forall_not {p : α → Bool} {f : α → α} :
    ∀ l : List α, (∀ x ∈ l, p x = false) → updateFirst p f l = l := by
  intro l h
  induction l with
  | nil => rfl
  | cons x xs ih =>
    simp only [updateFirst, h x (List.mem_cons_self x xs), Bool.false_eq_true, if_false,
      List.cons.injEq, true_and]
    exact ih fun y hy => h y (List.mem_cons_of_mem x hy)

theorem map_updateFirst {p : α → Bool} {f : α → α} (g : α → β)
    (hf : ∀ x, g (f x) = g x) :
    ∀ l : List α, (updateFirst p f l).map g = l.map g := by
  intro l
  induction l with
  | nil => rfl
  | cons x xs ih =>
    by_cases hp : p x = true
    · simp [updateFirst, hp, hf]
    · simp only [updateFirst, Bool.not_eq_true] at hp ⊢
      simp [hp, ih]

/-- `datetime.now().replace(minute=0, second=0, microsecond=0) + 1 hour` on
epoch seconds: the next hour boundary. -/
def nextHourBoundary (now : Nat) : Nat :=
  (now / 3600) * 3600 + 3600

/-- `status.value.replace("_", " ")`, the human-readable status used in the
InvalidState message of `start_task`. -/
def statusHuman (s : AssignmentStatus) : String :=
  (AssignmentStatus.value s).replace "_" " "

/-- assignment_operations.AssignmentOperations.start_task: transition an
assignment from PENDING_ACK to ACTIVE, stamping `started_at` and defaulting
`ends_at` to the next hour boundary; returns the updated store plus the
`(success, message)` pair of the source. -/
def start_task (db : DB) (assignment_id : Nat) (user_id : Nat) (now : Nat) :
    DB × Bool × String :=
  match db.assignments.find? (fun a => a.id == assignment_id) with
  | none => (db, false, "Assignment not found")
  | some assignment =>
    if assignment.user_id != user_id then
      (db, false, "You can only start your own tasks")
    else if assignment.status != AssignmentStatus.PENDING_ACK then
      (db, false, "Task is already " ++ statusHuman assignment.status)
    else
      let upd := fun (a : Assignment) => { a with
        status := AssignmentStatus.ACTIVE,
        started_at := some now,
        ends_at := match a.ends_at with
          | none => some (nextHourBoundary now)
          | some e => some e }
      let db1 := { db with
        assignments := updateFirst (fun a => a.id == assignment_id) upd db.assignments,
        audit := db.audit
          ++ [⟨some user_id, "task_started", some (toString assignment_id)⟩] }
      (db1, true, "Task started successfully!")

/-- C7: `start_task` succeeds exactly when the assignment exists, is owned by
the caller, and is PENDING_ACK; on success the row becomes ACTIVE with
`started_at = now` and `ends_at` defaulted to the next hour boundary when it
was unset, other rows untouched; on failure the store is unchanged and the
message identifies the NotFound / NotOwner / InvalidState cause. -/
theorem start_task_correct (db : DB) (aid uid now : Nat) :
    ((start_task db aid uid now).2.1 = true ↔
        ∃ a, db.assignments.find? (fun x => x.id == aid) = some a
          ∧ a.user_id = uid ∧ a.status = AssignmentStatus.PENDING_ACK)
      ∧ (∀ a, db.assignments.find? (fun x => x.id == aid) = some a →
          a.user_id = uid → a.status = AssignmentStatus.PENDING_ACK →
          (start_task db aid uid now).1.assignments.find? (fun x => x.id == aid)
              = some { a with
                  status := AssignmentStatus.ACTIVE,
                  started_at := some now,
                  ends_at := some (a.ends_at.getD (nextHourBoundary now)) }
            ∧ ∀ j, j ≠ aid →
                (start_task db aid uid now).1.assignments.find? (fun x => x.id == j)
                  = db.assignments.find? (fun x => x.id == j))
      ∧ ((start_task db aid uid now).2.1 = false →
          (start_task db aid uid now).1 = db
            ∧ (db.assignments.find? (fun x => x.id == aid) = none →
                (start_task db aid uid now).2.2 = "Assignment not found")
            ∧ (∀ a, db.assignments.find? (fun x => x.id == aid) = some a →
                a.user_id ≠ uid →
                (start_task db aid uid now).2.2 = "You can only start your own tasks")
            ∧ (∀ a, db.assignments.find? (fun x => x.id == aid) = some a →
                a.user_id = uid → a.status ≠ AssignmentStatus.PENDING_ACK →
                (start_task db aid uid now).2.2
                  = "Task is already " ++ statusHuman a.status)) := by
  refine ⟨?_, ?_, ?_⟩
  · unfold start_task
    cases hfind : db.assignments.find? (fun x => x.id == aid) with
    | none => simp
    | some a =>
      by_cases howner : a.user_id = uid
      · by_cases hstatus : a.status = AssignmentStatus.PENDING_ACK
        · simp [howner, hstatus]
        · simp [howner, hstatus]
      · simp [howner]
  · intro a hfind howner hstatus
    have hsucc : start_task db aid uid now
        = ({ db with
            assignments := updateFirst (fun x => x.id == aid)
              (fun x => { x with
                status := AssignmentStatus.ACTIVE,
                started_at := some now,
                ends_at := match x.ends_at with
                  | none => some (nextHourBoundary now)
                  | some e => some e }) db.assignments,
            audit := db.audit
              ++ [⟨some uid, "task_started", some (toString aid)⟩] },
          true, "Task started successfully!") := by
      unfold start_task
      rw [hfind]
      simp [howner, hstatus]
    constructor
    · rw [hsucc]
      have hpres : ∀ x : Assignment, (fun y => y.id == aid) x = true →
          (fun y => y.id == aid) ({ x with
            status := AssignmentStatus.ACTIVE,
            started_at := some now,
            ends_at := match x.ends_at with
              | none => some (nextHourBoundary now)
              | some e => some e } : Assignment) = true := by
        intro x hx; exact hx
      rw [find?_updateFirst_self hpres db.assignments, hfind]
      cases he : a.ends_at <;> simp [he]
    · intro j hj
      rw [hsucc]
      have hother : ∀ x : Assignment, (fun y => y.id == aid) x = true →
          (fun y => y.id == j) x = false
            ∧ (fun y => y.id == j) ({ x with
                status := AssignmentStatus.ACTIVE,
                started_at := some now,
                ends_at := match x.ends_at with
                  | none => some (nextHourBoundary now)
                  | some e => some e } : Assignment) = false := by
        intro x hx
        simp only [beq_iff_eq] at hx
        constructor <;> simp [hx] <;> omega
      exact find?_updateFirst_other hother db.assignments
  · intro hfail
    unfold start_task at hfail ⊢
    cases hfind : db.assignments.find? (fun x => x.id == aid) with
    | none => simp
    | some a =>
      rw [hfind] at hfail
      by_cases howner : a.user_id = uid
      · by_cases hstatus : a.status = AssignmentStatus.PENDING_ACK
        · simp [howner, hstatus] at hfail
        · simp [howner, hstatus]
      · simp [howner]

/-- Witness for C7: a concrete PENDING_ACK assignment owned by user 5 is
started at second 4000 and its `ends_at` defaults to 7200. -/
def startDB : DB :=
  { users := [wUser 5 none],
    assignments := [wAsg 1 5 .PENDING_ACK "Data Labelling"],
    requests := [], audit := [], next_assignment_id := 2, next_request_id := 1,
    settings := { assignments_channel_id := some 10, admin_channel_id := some 11,
                  min_on_duty := 3 } }

theorem start_task_correct_witness :
    (start_task startDB 1 5 4000).1.assignments.find? (fun x => x.id == 1)
        = some { wAsg 1 5 .PENDING_ACK "Data Labelling" with
                  status := AssignmentStatus.ACTIVE,
                  started_at := some 4000,
                  ends_at := some 7200 } := by
  have h := ((start_task_correct startDB 1 5 4000).2.1
    (wAsg 1 5 .PENDING_ACK "Data Labelling") (by decide) rfl rfl).1
  simpa using h

/-- break_manager.BreakManager._get_current_active_assignments: every
assignment of the hour whose status is ACTIVE, COVERING, PAUSED_BREAK or
PAUSED_LUNCH. -/
def get_current_active_assignments (db : DB) (hour_index : Nat) : List Assignment :=
  db.assignments.filter fun a =>
    a.hour_index == hour_index
      && (a.status == AssignmentStatus.ACTIVE
          || a.status == AssignmentStatus.COVERING
          || a.status == AssignmentStatus.PAUSED_BREAK
          || a.status == AssignmentStatus.PAUSED_LUNCH)

/-- break_manager.BreakManager.request_break: validate ownership/state, reject
a duplicate pending request, then create the approval request QUEUED_FOR_CAPACITY
when the staffing check fails and PENDING otherwise. -/
def request_break (db : DB) (assignment_id user_id : Nat) (break_type : String)
    (reason : String) (duration_minutes : Nat) (now : Nat) : DB × Bool × String :=
  match db.assignments.find? (fun a => a.id == assignment_id) with
  | none => (db, false, "Assignment not found")
  | some assignment =>
    if assignment.user_id != user_id then
      (db, false, "You can only request breaks for your own tasks")
    else if !(assignment.status == AssignmentStatus.ACTIVE
        || assignment.status == AssignmentStatus.COVERING) then
      (db, false, "Task must be active to request a break")
    else if db.requests.any (fun r =>
        r.user_id == user_id
          && (r.type == ApprovalType.BREAK15 || r.type == ApprovalType.LUNCH60)
          && (r.status == ApprovalStatus.PENDING
              || r.status == ApprovalStatus.QUEUED_FOR_CAPACITY)) then
      (db, false, "You already have a pending break request")
    else
      let current_active := get_current_active_assignments db assignment.hour_index
      let approval_type : ApprovalType :=
        if break_type == "break15" then .BREAK15 else .LUNCH60
      if !check_minimum_staffing current_active user_id db.settings.min_on_duty then
        let r : ApprovalRequest :=
          { id := db.next_request_id, user_id := user_id,
            assignment_id := assignment_id, type := approval_type,
            requested_at := now,
            payload := { reason := reason, duration_minutes := some duration_minutes },
            status := ApprovalStatus.QUEUED_FOR_CAPACITY,
            resolved_at := none, resolver_id := none, resolver_note := none }
        ({ db with
            requests := db.requests ++ [r],
            next_request_id := db.next_request_id + 1,
            audit := db.audit
              ++ [⟨some user_id, "break_request_queued", some (toString assignment_id)⟩] },
          true,
          "⏳ Break request queued due to minimum staffing requirements. You\u0027ll be notified when capacity allows.")
      else
        let r : ApprovalRequest :=
          { id := db.next_request_id, user_id := user_id,
            assignment_id := assignment_id, type := approval_type,
            requested_at := now,
            payload := { reason := reason, duration_minutes := some duration_minutes },
            status := ApprovalStatus.PENDING,
            resolved_at := none, resolver_id := none, resolver_note := none }
        ({ db with
            requests := db.requests ++ [r],
            next_request_id := db.next_request_id + 1,
            audit := db.audit
              ++ [⟨some user_id, "break_request_created", some (toString assignment_id)⟩] },
          true,
          -- break_type.title() on the one-word values "break15"/"lunch60"
          -- equals capitalisation of the first letter
          "📋 " ++ break_type.capitalize ++ " request sent to admins for approval")

/-- break_manager.BreakManager._setup_break_coverage: pick the first ACTIVE
Data Labelling assignment of another user in the hour and convert it in
place to cover the original task (status COVERING).  Returns the updated
store and the id of the coverage assignment, if any. -/
def setup_break_coverage (db : DB) (original : Assignment) : DB × Option Nat :=
  let data_labellers := db.assignments.filter fun a =>
    a.hour_index == original.hour_index
      && a.task_name == "Data Labelling"
      && a.status == AssignmentStatus.ACTIVE
      && a.user_id != original.user_id
  match data_labellers with
  | [] => (db, none)
  | coverage :: _ =>
    ({ db with
        assignments := updateFirst (fun x => x.id == coverage.id)
          (fun c => { c with
            task_name := original.task_name,
            template_id := original.template_id,
            params := original.params,
            covering_for_user_id := some original.user_id,
            status := AssignmentStatus.COVERING }) db.assignments },
      some coverage.id)

/-- break_manager.BreakManager._start_break: pause the assignment
(PAUSED_BREAK on a 15-minute payload, PAUSED_LUNCH otherwise), set up
coverage for non Data Labelling tasks and log.  `none` models returning
False, after which the caller rolls the transaction back. -/
def start_break (db : DB) (assignment_id user_id : Nat)
    (break_payload : BreakPayload) : Option DB :=
  match db.assignments.find? (fun a => a.id == assignment_id) with
  | none => none
  | some assignment =>
    if !(assignment.status == AssignmentStatus.ACTIVE
        || assignment.status == AssignmentStatus.COVERING) then none
    else
      let duration_minutes := break_payload.duration_minutes.getD 15
      let break_type := if duration_minutes == 15 then "break" else "lunch"
      let db1 := { db with
        assignments := updateFirst (fun x => x.id == assignment_id)
          (fun a => { a with status :=
            if break_type == "break" then AssignmentStatus.PAUSED_BREAK
            else AssignmentStatus.PAUSED_LUNCH }) db.assignments }
      let db2 := if assignment.task_name != "Data Labelling" then
          (setup_break_coverage db1 assignment).1
        else db1
      some { db2 with audit := db2.audit
        ++ [⟨some user_id, "break_started", some (toString assignment_id)⟩] }

/-- The filter of the resolution query: the request of this assignment,
user and break type that is still PENDING. -/
def pendingMatch (assignment_id user_id : Nat) (break_type : ApprovalType)
    (r : ApprovalRequest) : Bool :=
  r.assignment_id == assignment_id && r.user_id == user_id
    && r.type == break_type && r.status == ApprovalStatus.PENDING

/-- break_manager.BreakManager.resolve_break_request: the request must still
be PENDING; approval starts the break (rolling back when that fails),
denial stamps the resolution and logs. -/
def resolve_break_request (db : DB) (assignment_id user_id : Nat)
    (break_type : ApprovalType) (approved : Bool) (resolver_id : Nat)
    (reason : String) (now : Nat) : DB × Bool × String :=
  match db.requests.find? (pendingMatch assignment_id user_id break_type) with
  | none => (db, false, "Approval request not found or already processed")
  | some request =>
    let db1 := { db with
      requests := updateFirst (pendingMatch assignment_id user_id break_type)
        (fun r => { r with
          status := if approved then ApprovalStatus.APPROVED else ApprovalStatus.DENIED,
          resolved_at := some now,
          resolver_id := some resolver_id,
          resolver_note := some reason }) db.requests }
    if approved then
      match start_break db1 assignment_id user_id request.payload with
      | none => (db, false, "Failed to start break - assignment may no longer be active")
      | some db2 => (db2, true, "Break request approved successfully")
    else
      ({ db1 with audit := db1.audit
          ++ [⟨some resolver_id, "break_request_denied", some (toString assignment_id)⟩] },
        true, "Break request denied successfully")

/-- break_manager.BreakManager._resume_from_break: only a still-paused
assignment is resumed; a coverage assignment still COVERING is reverted to
Data Labelling.  `coverage` is the id of the coverage assignment handed to
the countdown, if any. -/
def resume_from_break (db : DB) (assignment_id user_id : Nat)
    (coverage : Option Nat) : DB :=
  match db.assignments.find? (fun a => a.id == assignment_id) with
  | none => db
  | some assignment =>
    if !(assignment.status == AssignmentStatus.PAUSED_BREAK
        || assignment.status == AssignmentStatus.PAUSED_LUNCH) then db
    else
      let db1 := { db with
        assignments := updateFirst (fun x => x.id == assignment_id)
          (fun a => { a with status := AssignmentStatus.ACTIVE }) db.assignments }
      let db2 : DB := match coverage with
        | none => db1
        | some cid =>
          match db1.assignments.find? (fun x => x.id == cid) with
          | none => db1
          | some current_coverage =>
            if current_coverage.status == AssignmentStatus.COVERING then
              { db1 with
                assignments := updateFirst (fun x => x.id == cid)
                  (fun c => { c with
                    task_name := "Data Labelling",
                    template_id := none,
                    params := [],
                    covering_for_user_id := none,
                    status := AssignmentStatus.ACTIVE }) db1.assignments }
            else db1
      { db2 with audit := db2.audit
        ++ [⟨some user_id, "break_auto_resumed", some (toString assignment_id)⟩] }

/-- An entry of BreakManager.break_timers: the break taker and the coverage
assignment captured by the countdown task. -/
structure BreakTimer where
  user_id : Nat
  coverage : Option Nat
  deriving DecidableEq, Repr

/-- BreakManager state: the store plus the in-memory break_timers dict. -/
structure BotState where
  db : DB
  break_timers : List (Nat × BreakTimer)
  deriving DecidableEq, Repr

/-- break_manager.BreakManager.cancel_break: an owner cancels an in-progress
break, which resumes immediately and drops the timer entry. -/
def cancel_break (s : BotState) (assignment_id user_id : Nat) :
    BotState × Bool × String :=
  match s.break_timers.find? (fun t => t.1 == assignment_id) with
  | none => (s, false, "No active break found for this assignment")
  | some break_info =>
    if break_info.2.user_id == user_id then
      ({ db := resume_from_break s.db assignment_id user_id break_info.2.coverage,
         break_timers := s.break_timers.filter (fun t => t.1 != assignment_id) },
        true, "Break cancelled and assignment resumed")
    else
      (s, false, "You can only cancel your own breaks")

/-- Two rows of an id-unique table sharing an id are the same row. -/
theorem eq_of_id_eq_of_pairwise {l : List Assignment}
    (h : l.Pairwise (fun x y => x.id ≠ y.id)) {a b : Assignment}
    (ha : a ∈ l) (hb : b ∈ l) (hid : a.id = b.id) : a = b := by
  by_cases hab : a = b
  · exact hab
  · exact absurd hid (List.Pairwise.forall (fun x y hxy => hxy.symm) h ha hb hab)

/-- In an id-unique table a member is found by its own id. -/
theorem find?_id_of_mem_pairwise {l : List Assignment}
    (h : l.Pairwise (fun x y => x.id ≠ y.id)) {a : Assignment} (ha : a ∈ l) :
    l.find? (fun x => x.id == a.id) = some a := by
  induction l with
  | nil => simp at ha
  | cons x xs ih =>
    rcases List.mem_cons.mp ha with rfl | hmem
    · simp [List.find?_cons]
    · have hx : x.id ≠ a.id := (List.pairwise_cons.mp h).1 a hmem
      have hxb : (x.id == a.id) = false := by simpa using hx
      rw [List.find?_cons, hxb]
      exact ih (List.pairwise_cons.mp h).2 hmem

/-- An id-preserving row update keeps the table id-unique. -/
theorem pairwise_ids_updateFirst {p : Assignment → Bool} {f : Assignment → Assignment}
    (hf : ∀ x, (f x).id = x.id) {l : List Assignment}
    (h : l.Pairwise (fun x y => x.id ≠ y.id)) :
    (updateFirst p f l).Pairwise (fun x y => x.id ≠ y.id) := by
  have hmap : (updateFirst p f l).map (fun x => x.id) = l.map (fun x => x.id) :=
    map_updateFirst _ hf l
  have h1 : (l.map (fun x => x.id)).Pairwise (· ≠ ·) := List.pairwise_map.mpr h
  rw [← hmap] at h1
  exact List.pairwise_map.mp h1

/-- C10: starting an approved break pauses the assignment according to the
payload duration with default 15: PAUSED_BREAK exactly when
`duration_minutes.getD 15 = 15` (so also when the key is absent), and
PAUSED_LUNCH for every other duration value. -/
theorem start_break_duration_correct (db : DB) (aid uid : Nat)
    (payload : BreakPayload) (a : Assignment)
    (hids : db.assignments.Pairwise (fun x y => x.id ≠ y.id))
    (hfind : db.assignments.find? (fun x => x.id == aid) = some a)
    (hstatus : a.status = AssignmentStatus.ACTIVE
      ∨ a.status = AssignmentStatus.COVERING) :
    ∃ db2, start_break db aid uid payload = some db2
      ∧ db2.assignments.find? (fun x => x.id == aid)
          = some { a with status :=
              if payload.duration_minutes.getD 15 = 15 then AssignmentStatus.PAUSED_BREAK
              else AssignmentStatus.PAUSED_LUNCH } := by
  have hb : (!(a.status == AssignmentStatus.ACTIVE
      || a.status == AssignmentStatus.COVERING)) = false := by
    rcases hstatus with h | h <;> simp [h]
  have hsdef : (if (if payload.duration_minutes.getD 15 == 15 then "break" else "lunch")
        == "break"
      then AssignmentStatus.PAUSED_BREAK else AssignmentStatus.PAUSED_LUNCH)
      = (if payload.duration_minutes.getD 15 = 15 then AssignmentStatus.PAUSED_BREAK
        else AssignmentStatus.PAUSED_LUNCH) := by
    by_cases hd : payload.duration_minutes.getD 15 = 15 <;> simp [hd]
  unfold start_break
  rw [hfind]
  simp only [hb, Bool.false_eq_true, if_false, hsdef]
  refine ⟨_, rfl, ?_⟩
  set l1 := updateFirst (fun x => x.id == aid)
    (fun x => { x with status :=
      if payload.duration_minutes.getD 15 = 15 then AssignmentStatus.PAUSED_BREAK
      else AssignmentStatus.PAUSED_LUNCH }) db.assignments with hl1
  have hpres : ∀ x : Assignment, (fun y : Assignment => y.id == aid) x = true →
      (fun y : Assignment => y.id == aid)
        ({ x with status :=
          if payload.duration_minutes.getD 15 = 15 then AssignmentStatus.PAUSED_BREAK
          else AssignmentStatus.PAUSED_LUNCH } : Assignment) = true :=
    fun _ hx => hx
  have hfind1 : l1.find? (fun x => x.id == aid)
      = some { a with status :=
        if payload.duration_minutes.getD 15 = 15 then AssignmentStatus.PAUSED_BREAK
        else AssignmentStatus.PAUSED_LUNCH } := by
    rw [hl1, find?_updateFirst_self hpres db.assignments, hfind]
    rfl
  have hid_pres : ∀ x : Assignment,
      (({ x with status :=
        if payload.duration_minutes.getD 15 = 15 then AssignmentStatus.PAUSED_BREAK
        else AssignmentStatus.PAUSED_LUNCH } : Assignment)).id = x.id := fun _ => rfl
  have hids1 : l1.Pairwise (fun x y => x.id ≠ y.id) := by
    rw [hl1]
    exact pairwise_ids_updateFirst hid_pres hids
  have hmem1 : ({ a with status :=
      if payload.duration_minutes.getD 15 = 15 then AssignmentStatus.PAUSED_BREAK
      else AssignmentStatus.PAUSED_LUNCH } : Assignment) ∈ l1 :=
    List.mem_of_find?_eq_some hfind1
  have hsne : (if payload.duration_minutes.getD 15 = 15 then AssignmentStatus.PAUSED_BREAK
      else AssignmentStatus.PAUSED_LUNCH) ≠ AssignmentStatus.ACTIVE := by
    by_cases hd : payload.duration_minutes.getD 15 = 15 <;> simp [hd]
  by_cases htask : a.task_name = "Data Labelling"
  · have hbne : (a.task_name != "Data Labelling") = false := by simp [htask]
    simp only [hbne, Bool.false_eq_true, if_false]
    exact hfind1
  · have hbne : (a.task_name != "Data Labelling") = true := by simp [htask]
    simp only [hbne, if_true]
    unfold setup_break_coverage
    dsimp only
    cases hfl : l1.filter (fun x =>
        x.hour_index == a.hour_index
          && x.task_name == "Data Labelling"
          && x.status == AssignmentStatus.ACTIVE
          && x.user_id != a.user_id) with
    | nil =>
      simp only [hfl]
      exact hfind1
    | cons coverage rest =>
      simp only [hfl]
      have hcmem_f : coverage ∈ l1.filter (fun x =>
          x.hour_index == a.hour_index
            && x.task_name == "Data Labelling"
            && x.status == AssignmentStatus.ACTIVE
            && x.user_id != a.user_id) := by
        rw [hfl]
        exact List.mem_cons_self coverage rest
      have hcmem : coverage ∈ l1 := List.mem_of_mem_filter hcmem_f
      have hcpred := List.of_mem_filter hcmem_f
      have hcactive : coverage.status = AssignmentStatus.ACTIVE := by
        simp only [Bool.and_eq_true, beq_iff_eq] at hcpred
        exact hcpred.1.2
      have hcid : coverage.id ≠ aid := by
        intro hcontra
        have haid : ({ a with status :=
            if payload.duration_minutes.getD 15 = 15 then AssignmentStatus.PAUSED_BREAK
            else AssignmentStatus.PAUSED_LUNCH } : Assignment).id = aid := by
          have := List.find?_some hfind1
          simpa using this
        have hceq : coverage = { a with status :=
            if payload.duration_minutes.getD 15 = 15 then AssignmentStatus.PAUSED_BREAK
            else AssignmentStatus.PAUSED_LUNCH } :=
          eq_of_id_eq_of_pairwise hids1 hcmem hmem1 (by rw [hcontra, haid])
        rw [hceq] at hcactive
        exact hsne hcactive
      rw [find?_updateFirst_other (fun x hx => ?_) l1]
      · exact hfind1
      · simp only [beq_iff_eq] at hx
        constructor <;> simp [hx] <;> omega

/-- Witness store for the break-manager claims: user 2 is ACTIVE on a
non-default task in hour 3, user 3 is an ACTIVE Data Labeller there. -/
def breakDB : DB :=
  { users := [wUser 2 none, wUser 3 none],
    assignments := [wAsg 1 2 .ACTIVE "Tool QC", wAsg 2 3 .ACTIVE "Data Labelling"],
    requests := [], audit := [], next_assignment_id := 3, next_request_id := 1,
    settings := { assignments_channel_id := some 10, admin_channel_id := some 11,
                  min_on_duty := 3 } }

theorem start_break_duration_correct_witness :
    ∃ db2, start_break breakDB 1 2 { reason := "tired", duration_minutes := some 60 }
        = some db2
      ∧ db2.assignments.find? (fun x => x.id == 1)
          = some { wAsg 1 2 .ACTIVE "Tool QC" with
                    status := AssignmentStatus.PAUSED_LUNCH } := by
  have h := start_break_duration_correct breakDB 1 2
    { reason := "tired", duration_minutes := some 60 }
    (wAsg 1 2 .ACTIVE "Tool QC") (by decide) (by decide) (Or.inl rfl)
  simpa using h

/-- The staffing quantity `check_minimum_staffing` sees inside
`request_break` equals the count of ACTIVE/COVERING assignments of the hour
owned by other users: the PAUSED rows the hour query also returns are
discarded again by the staffing filter. -/
theorem activeExcludingCount_hour (db : DB) (h uid : Nat) :
    activeExcludingCount (get_current_active_assignments db h) uid
      = activeExcludingCount (db.assignments.filter fun x => x.hour_index = h) uid := by
  unfold activeExcludingCount get_current_active_assignments
  rw [List.filter_filter, List.filter_filter]
  congr 1
  apply List.filter_congr
  intro x _
  by_cases h1 : x.status = AssignmentStatus.ACTIVE <;>
    by_cases h2 : x.status = AssignmentStatus.COVERING <;>
    by_cases h3 : x.user_id = uid <;>
    by_cases h4 : x.hour_index = h <;>
      simp [h1, h2, h3, h4]

/-- C3: a break/lunch request by the owner of an ACTIVE/COVERING assignment
with no other pending or queued break request is always created: with
status QUEUED_FOR_CAPACITY (not DENIED, not APPROVED) when the remaining
ACTIVE/COVERING count of the hour is below `min_on_duty`, and with status
PENDING otherwise. -/
theorem request_break_staffing_correct (db : DB) (aid uid : Nat)
    (break_type reason : String) (dur now : Nat) (a : Assignment)
    (hfind : db.assignments.find? (fun x => x.id == aid) = some a)
    (howner : a.user_id = uid)
    (hstatus : a.status = AssignmentStatus.ACTIVE
      ∨ a.status = AssignmentStatus.COVERING)
    (hnone : ∀ r ∈ db.requests, ¬(r.user_id = uid
        ∧ (r.type = ApprovalType.BREAK15 ∨ r.type = ApprovalType.LUNCH60)
        ∧ (r.status = ApprovalStatus.PENDING
            ∨ r.status = ApprovalStatus.QUEUED_FOR_CAPACITY))) :
    (request_break db aid uid break_type reason dur now).2.1 = true
      ∧ (request_break db aid uid break_type reason dur now).1.requests
          = db.requests ++
            [{ id := db.next_request_id, user_id := uid, assignment_id := aid,
               type := if break_type == "break15" then ApprovalType.BREAK15
                 else ApprovalType.LUNCH60,
               requested_at := now,
               payload := { reason := reason, duration_minutes := some dur },
               status :=
                 if activeExcludingCount
                     (db.assignments.filter fun x => x.hour_index = a.hour_index) uid
                     < db.settings.min_on_duty
                 then ApprovalStatus.QUEUED_FOR_CAPACITY
                 else ApprovalStatus.PENDING,
               resolved_at := none, resolver_id := none, resolver_note := none }] := by
  have hb : (a.user_id != uid) = false := by simp [howner]
  have hact : (!(a.status == AssignmentStatus.ACTIVE
      || a.status == AssignmentStatus.COVERING)) = false := by
    rcases hstatus with h | h <;> simp [h]
  have hany : (db.requests.any fun r =>
      r.user_id == uid
        && (r.type == ApprovalType.BREAK15 || r.type == ApprovalType.LUNCH60)
        && (r.status == ApprovalStatus.PENDING
            || r.status == ApprovalStatus.QUEUED_FOR_CAPACITY)) = false := by
    rw [List.any_eq_false]
    intro r hr
    have h := hnone r hr
    simp only [Bool.and_eq_true, Bool.or_eq_true, beq_iff_eq, not_and, not_or] at h ⊢
    tauto
  have hcnt := activeExcludingCount_hour db a.hour_index uid
  unfold request_break
  rw [hfind]
  simp only [hb, Bool.false_eq_true, if_false, hact, hany]
  by_cases hq : check_minimum_staffing
      (get_current_active_assignments db a.hour_index) uid db.settings.min_on_duty
  · have hge : db.settings.min_on_duty
        ≤ activeExcludingCount
          (db.assignments.filter fun x => x.hour_index = a.hour_index) uid := by
      rw [← hcnt]
      exact (check_minimum_staffing_iff _ _ _).mp hq
    rw [hq]
    simp only [Bool.not_true, Bool.false_eq_true, if_false]
    have hnotlt : ¬(activeExcludingCount
        (db.assignments.filter fun x => x.hour_index = a.hour_index) uid
        < db.settings.min_on_duty) := by omega
    exact ⟨trivial, by rw [if_neg hnotlt]⟩
  · have hlt : activeExcludingCount
        (db.assignments.filter fun x => x.hour_index = a.hour_index) uid
        < db.settings.min_on_duty := by
      rcases hc : check_minimum_staffing
          (get_current_active_assignments db a.hour_index) uid db.settings.min_on_duty with
        _ | _
      · have : ¬(db.settings.min_on_duty
            ≤ activeExcludingCount (get_current_active_assignments db a.hour_index) uid) := by
          intro hcontra
          exact hq ((check_minimum_staffing_iff _ _ _).mpr hcontra)
        omega
      · exact absurd hc hq
    rw [Bool.eq_false_iff.mpr hq]
    simp only [Bool.not_false, if_true]
    exact ⟨trivial, by rw [if_pos hlt]⟩

/-- Witness for C3: with a floor of 3 and nobody else active in the hour,
the concrete request is created QUEUED_FOR_CAPACITY. -/
theorem request_break_staffing_correct_witness :
    (request_break breakDB 1 2 "break15" "coffee" 15 100).2.1 = true
      ∧ (request_break breakDB 1 2 "break15" "coffee" 15 100).1.requests
          = [{ id := 1, user_id := 2, assignment_id := 1,
               type := ApprovalType.BREAK15, requested_at := 100,
               payload := { reason := "coffee", duration_minutes := some 15 },
               status := ApprovalStatus.QUEUED_FOR_CAPACITY,
               resolved_at := none, resolver_id := none, resolver_note := none }] := by
  have h := request_break_staffing_correct breakDB 1 2 "break15" "coffee" 15 100
    (wAsg 1 2 .ACTIVE "Tool QC") (by decide) rfl (Or.inl rfl)
    (by intro r hr; simp [breakDB] at hr)
  refine ⟨h.1, ?_⟩
  rw [h.2]
  norm_num [breakDB, activeExcludingCount, wAsg]

/-- Resuming an assignment that is absent or no longer paused changes
nothing at all. -/
theorem resume_of_not_paused (db : DB) (aid uid : Nat) (cov : Option Nat)
    (h : ∀ a, db.assignments.find? (fun x => x.id == aid) = some a →
      a.status ≠ AssignmentStatus.PAUSED_BREAK
        ∧ a.status ≠ AssignmentStatus.PAUSED_LUNCH) :
    resume_from_break db aid uid cov = db := by
  unfold resume_from_break
  cases hfind : db.assignments.find? (fun x => x.id == aid) with
  | none => rfl
  | some a =>
    have hnp := h a hfind
    have hb : (!(a.status == AssignmentStatus.PAUSED_BREAK
        || a.status == AssignmentStatus.PAUSED_LUNCH)) = true := by
      simp [hnp.1, hnp.2]
    simp [hb]

/-- After a resume, the assignment looked up by its id is never paused. -/
theorem resume_find_aid (db : DB) (aid uid : Nat) (cov : Option Nat)
    (a : Assignment)
    (hfind : db.assignments.find? (fun x => x.id == aid) = some a)
    (hp : a.status = AssignmentStatus.PAUSED_BREAK
      ∨ a.status = AssignmentStatus.PAUSED_LUNCH) :
    (resume_from_break db aid uid cov).assignments.find? (fun x => x.id == aid)
      = some { a with status := AssignmentStatus.ACTIVE } := by
  have hb : (!(a.status == AssignmentStatus.PAUSED_BREAK
      || a.status == AssignmentStatus.PAUSED_LUNCH)) = false := by
    rcases hp with h | h <;> simp [h]
  have hpres : ∀ x : Assignment, (fun y : Assignment => y.id == aid) x = true →
      (fun y : Assignment => y.id == aid)
        ({ x with status := AssignmentStatus.ACTIVE } : Assignment) = true :=
    fun _ hx => hx
  have hfind1 : (updateFirst (fun x => x.id == aid)
        (fun x => { x with status := AssignmentStatus.ACTIVE })
        db.assignments).find? (fun x => x.id == aid)
      = some { a with status := AssignmentStatus.ACTIVE } := by
    rw [find?_updateFirst_self hpres db.assignments, hfind]
    rfl
  unfold resume_from_break
  rw [hfind]
  simp only [hb, Bool.false_eq_true, if_false]
  cases cov with
  | none =>
    dsimp only
    exact hfind1
  | some cid =>
    dsimp only
    by_cases hcid : cid = aid
    · subst hcid
      rw [hfind1]
      dsimp only
      have hnc : (({ a with status := AssignmentStatus.ACTIVE } : Assignment).status
          == AssignmentStatus.COVERING) = false := by simp
      simp only [hnc, Bool.false_eq_true, if_false]
      exact hfind1
    · cases hc : (updateFirst (fun x => x.id == aid)
          (fun x => { x with status := AssignmentStatus.ACTIVE })
          db.assignments).find? (fun x => x.id == cid) with
      | none =>
        dsimp only
        exact hfind1
      | some c =>
        dsimp only
        by_cases hcov : (c.status == AssignmentStatus.COVERING) = true
        · have hother : ∀ x : Assignment, (fun y : Assignment => y.id == cid) x = true →
              (fun y : Assignment => y.id == aid) x = false
                ∧ (fun y : Assignment => y.id == aid)
                    ({ x with
                      task_name := "Data Labelling",
                      template_id := none,
                      params := [],
                      covering_for_user_id := none,
                      status := AssignmentStatus.ACTIVE } : Assignment) = false := by
            intro x hx
            simp only [beq_iff_eq] at hx ⊢
            constructor <;> simp [hx] <;> omega
          rw [hcov]
          simp only [if_true]
          rw [find?_updateFirst_other hother _]
          exact hfind1
        · rw [Bool.eq_false_iff.mpr hcov]
          simp only [Bool.false_eq_true, if_false]
          exact hfind1

/-- Resuming twice is the same as resuming once, whatever the second
resume's caller and coverage argument are. -/
theorem resume_idem (db : DB) (aid uid : Nat) (cov : Option Nat)
    (uid2 : Nat) (cov2 : Option Nat) :
    resume_from_break (resume_from_break db aid uid cov) aid uid2 cov2
      = resume_from_break db aid uid cov := by
  cases hfind : db.assignments.find? (fun x => x.id == aid) with
  | none =>
    have h1 : resume_from_break db aid uid cov = db :=
      resume_of_not_paused db aid uid cov
        (fun b hb => by rw [hfind] at hb; cases hb)
    rw [h1]
    exact resume_of_not_paused db aid uid2 cov2
      (fun b hb => by rw [hfind] at hb; cases hb)
  | some a =>
    by_cases hp : a.status = AssignmentStatus.PAUSED_BREAK
        ∨ a.status = AssignmentStatus.PAUSED_LUNCH
    · have h2 := resume_find_aid db aid uid cov a hfind hp
      apply resume_of_not_paused
      intro b hb
      rw [h2] at hb
      cases hb
      exact ⟨by simp, by simp⟩
    · push_neg at hp
      have hnp : ∀ b, db.assignments.find? (fun x => x.id == aid) = some b →
          b.status ≠ AssignmentStatus.PAUSED_BREAK
            ∧ b.status ≠ AssignmentStatus.PAUSED_LUNCH := by
        intro b hb
        rw [hfind] at hb
        cases hb
        exact hp
      have h1 : resume_from_break db aid uid cov = db :=
        resume_of_not_paused db aid uid cov hnp
      rw [h1]
      exact resume_of_not_paused db aid uid2 cov2 hnp

/-- C6: resume-from-break on an assignment that is not PAUSED_BREAK or
PAUSED_LUNCH is a complete no-op, and after a successful break
cancellation (which resumes immediately) the later auto-resume firing for
the same assignment changes no state. -/
theorem resume_noop_after_cancel (db : DB) (aid uid : Nat) (cov : Option Nat) :
    ((∀ a, db.assignments.find? (fun x => x.id == aid) = some a →
        a.status ≠ AssignmentStatus.PAUSED_BREAK
          ∧ a.status ≠ AssignmentStatus.PAUSED_LUNCH) →
      resume_from_break db aid uid cov = db)
    ∧ (∀ (s : BotState) (uid2 : Nat) (cov2 : Option Nat),
        (cancel_break s aid uid).2.1 = true →
        resume_from_break (cancel_break s aid uid).1.db aid uid2 cov2
          = (cancel_break s aid uid).1.db) := by
  constructor
  · exact resume_of_not_paused db aid uid cov
  · intro s uid2 cov2 hok
    unfold cancel_break at hok ⊢
    cases hf : s.break_timers.find? (fun t => t.1 == aid) with
    | none =>
      rw [hf] at hok
      simp at hok
    | some ti =>
      rw [hf] at hok
      by_cases hown : (ti.2.user_id == uid) = true
      · simp only [hown, if_true] at hok ⊢
        exact resume_idem s.db aid uid ti.2.coverage uid2 cov2
      · simp [hown] at hok

/-- Witness for C6: a concrete 15-minute break on assignment 1 (coverage on
assignment 2) is cancelled; the later auto-resume leaves the cancelled
state untouched. -/
def resumeState : BotState :=
  { db := { breakDB with
      assignments := [wAsg 1 2 .PAUSED_BREAK "Tool QC",
        { wAsg 2 3 .COVERING "Tool QC" with covering_for_user_id := some 2 }] },
    break_timers := [(1, { user_id := 2, coverage := some 2 })] }

theorem resume_noop_after_cancel_witness :
    (cancel_break resumeState 1 2).2.1 = true
      ∧ resume_from_break (cancel_break resumeState 1 2).1.db 1 0 (some 2)
          = (cancel_break resumeState 1 2).1.db := by
  refine ⟨by decide, ?_⟩
  exact (resume_noop_after_cancel (cancel_break resumeState 1 2).1.db 1 2 none).2
    resumeState 0 (some 2) (by decide)

/-- Updating the unique row matching `p` so that it no longer matches makes
a further `find? p` come up empty. -/
theorem find?_updateFirst_none {p : α → Bool} {f : α → α}
    (hf : ∀ x, p x = true → p (f x) = false) :
    ∀ l : List α, l.countP p ≤ 1 → (updateFirst p f l).find? p = none := by
  intro l
  induction l with
  | nil => intro _; rfl
  | cons x xs ih =>
    intro hcount
    rw [List.countP_cons] at hcount
    by_cases hp : p x = true
    · have hc0 : xs.countP p = 0 := by
        simp only [hp, if_true] at hcount
        omega
      have hnone : ∀ y ∈ xs, ¬ p y = true := by
        intro y hy
        exact List.countP_eq_zero.mp hc0 y hy
      have hupd : updateFirst p f (x :: xs) = f x :: xs := by
        simp [updateFirst, hp]
      rw [hupd, List.find?_cons_of_neg _ (by simp [hf x hp])]
      exact List.find?_eq_none.mpr hnone
    · have hupd : updateFirst p f (x :: xs) = x :: updateFirst p f xs := by
        simp [updateFirst, hp]
      rw [hupd, List.find?_cons_of_neg _ hp]
      apply ih
      simp [hp] at hcount
      omega

/-- After updating the row `find? p` returned, looking it up again by key
returns the updated row (keys unique and preserved by the update). -/
theorem find?_key_updateFirst {p : α → Bool} {f : α → α} {key : α → Nat}
    (hkey : ∀ x, key (f x) = key x) :
    ∀ {l : List α} {r : α}, l.find? p = some r →
      l.Pairwise (fun a b => key a ≠ key b) →
      (updateFirst p f l).find? (fun x => key x == key r) = some (f r) := by
  intro l
  induction l with
  | nil => intro r h; cases h
  | cons x xs ih =>
    intro r hfind hpair
    by_cases hp : p x = true
    · rw [List.find?_cons_of_pos _ hp] at hfind
      cases hfind
      have hupd : updateFirst p f (x :: xs) = f x :: xs := by
        simp [updateFirst, hp]
      rw [hupd]
      apply List.find?_cons_of_pos
      simp [hkey x]
    · rw [List.find?_cons_of_neg _ hp] at hfind
      have hrx : r ∈ xs := List.mem_of_find?_eq_some hfind
      have hxkey : key x ≠ key r := (List.pairwise_cons.mp hpair).1 r hrx
      have hupd : updateFirst p f (x :: xs) = x :: updateFirst p f xs := by
        simp [updateFirst, hp]
      rw [hupd, List.find?_cons_of_neg _ (by simp [hxkey])]
      exact ih hfind (List.pairwise_cons.mp hpair).2

/-- setup_break_coverage only touches assignment rows. -/
theorem setup_break_coverage_requests (db : DB) (orig : Assignment) :
    (setup_break_coverage db orig).1.requests = db.requests := by
  unfold setup_break_coverage
  cases hfl : db.assignments.filter (fun a =>
      a.hour_index == orig.hour_index
        && a.task_name == "Data Labelling"
        && a.status == AssignmentStatus.ACTIVE
        && a.user_id != orig.user_id) with
  | nil => rfl
  | cons c rest => rfl

/-- A break on an ACTIVE/COVERING assignment always starts, and starting it
leaves the approval-request table untouched. -/
theorem start_break_some (db : DB) (aid uid : Nat) (payload : BreakPayload)
    (a : Assignment)
    (hfind : db.assignments.find? (fun x => x.id == aid) = some a)
    (hstatus : a.status = AssignmentStatus.ACTIVE
      ∨ a.status = AssignmentStatus.COVERING) :
    ∃ db2, start_break db aid uid payload = some db2
      ∧ db2.requests = db.requests := by
  have hb : (!(a.status == AssignmentStatus.ACTIVE
      || a.status == AssignmentStatus.COVERING)) = false := by
    rcases hstatus with h | h <;> simp [h]
  unfold start_break
  rw [hfind]
  simp only [hb, Bool.false_eq_true, if_false]
  refine ⟨_, rfl, ?_⟩
  by_cases htask : (a.task_name != "Data Labelling") = true
  · simp only [htask, if_true]
    exact setup_break_coverage_requests _ a
  · rw [Bool.eq_false_iff.mpr htask]
    simp only [Bool.false_eq_true, if_false]

/-- Store exhibiting the C8 counterexample: a PENDING BREAK15 request whose
assignment has already COMPLETED. -/
def resolveDB : DB :=
  { users := [wUser 2 none],
    assignments := [wAsg 1 2 .COMPLETED "Tool QC"],
    requests := [
      { id := 1, user_id := 2, assignment_id := 1,
        type := ApprovalType.BREAK15, requested_at := 0,
        payload := { reason := "x", duration_minutes := some 15 },
        status := ApprovalStatus.PENDING,
        resolved_at := none, resolver_id := none, resolver_note := none }],
    audit := [], next_assignment_id := 2, next_request_id := 2,
    settings := { assignments_channel_id := some 10, admin_channel_id := some 11,
                  min_on_duty := 3 } }

/-- C8 counterexample: the first resolution attempt on a PENDING request can
fail — approving while the assignment is no longer active rolls back and
returns failure, leaving the request PENDING. -/
theorem resolve_break_request_first_attempt_fails :
    (resolve_break_request resolveDB 1 2 ApprovalType.BREAK15 true 9 "" 500).2.1 = false
      ∧ (resolve_break_request resolveDB 1 2 ApprovalType.BREAK15 true 9 "" 500).1
          = resolveDB := by
  exact ⟨rfl, rfl⟩

/-- C8 (amended): resolving a request that is not PENDING fails and changes
nothing; and on a PENDING request whose resolution can be applied (any
denial, or an approval whose assignment is still ACTIVE/COVERING) the first
attempt succeeds, stamps resolver identity/note, and every later attempt on
the same request fails with the store unchanged. -/
theorem resolve_break_request_correct (db : DB) (aid uid : Nat)
    (ty : ApprovalType) (approved : Bool) (rid : Nat) (note : String) (now : Nat) :
    (db.requests.find? (pendingMatch aid uid ty) = none →
        resolve_break_request db aid uid ty approved rid note now
          = (db, false, "Approval request not found or already processed"))
      ∧ (∀ r, db.requests.find? (pendingMatch aid uid ty) = some r →
          db.requests.countP (pendingMatch aid uid ty) ≤ 1 →
          db.requests.Pairwise (fun a b => a.id ≠ b.id) →
          (approved = false
            ∨ ∃ a, db.assignments.find? (fun x => x.id == aid) = some a
                ∧ (a.status = AssignmentStatus.ACTIVE
                    ∨ a.status = AssignmentStatus.COVERING)) →
          (resolve_break_request db aid uid ty approved rid note now).2.1 = true
            ∧ (resolve_break_request db aid uid ty approved rid note now).1.requests.find?
                (fun x => x.id == r.id)
                = some { r with
                    status := if approved then ApprovalStatus.APPROVED
                      else ApprovalStatus.DENIED,
                    resolved_at := some now, resolver_id := some rid,
                    resolver_note := some note }
            ∧ ∀ approved2 rid2 note2 now2,
                resolve_break_request
                    (resolve_break_request db aid uid ty approved rid note now).1
                    aid uid ty approved2 rid2 note2 now2
                  = ((resolve_break_request db aid uid ty approved rid note now).1,
                      false, "Approval request not found or already processed")) := by
  constructor
  · intro hnone
    unfold resolve_break_request
    rw [hnone]
  · intro r hfind hcount hids happ
    have hupd_nomatch : ∀ x : ApprovalRequest, pendingMatch aid uid ty x = true →
        pendingMatch aid uid ty ({ x with
          status := if approved then ApprovalStatus.APPROVED else ApprovalStatus.DENIED,
          resolved_at := some now, resolver_id := some rid,
          resolver_note := some note } : ApprovalRequest) = false := by
      intro x _
      unfold pendingMatch
      by_cases hap : approved <;> simp [hap]
    have hkey : ∀ x : ApprovalRequest,
        (({ x with
          status := if approved then ApprovalStatus.APPROVED else ApprovalStatus.DENIED,
          resolved_at := some now, resolver_id := some rid,
          resolver_note := some note } : ApprovalRequest)).id = x.id := fun _ => rfl
    have hfound := find?_key_updateFirst hkey hfind hids
    have hgone := find?_updateFirst_none hupd_nomatch db.requests hcount
    -- the updated request table shared by both resolution outcomes
    have main : (resolve_break_request db aid uid ty approved rid note now).2.1 = true
        ∧ (resolve_break_request db aid uid ty approved rid note now).1.requests
            = updateFirst (pendingMatch aid uid ty)
              (fun x => { x with
                status := if approved then ApprovalStatus.APPROVED
                  else ApprovalStatus.DENIED,
                resolved_at := some now, resolver_id := some rid,
                resolver_note := some note }) db.requests := by
      unfold resolve_break_request
      rw [hfind]
      by_cases hap : approved = true
      · subst hap
        simp only [if_true]
        have hex : ∃ a, db.assignments.find? (fun x => x.id == aid) = some a
            ∧ (a.status = AssignmentStatus.ACTIVE
                ∨ a.status = AssignmentStatus.COVERING) := by
          rcases happ with h | h
          · simp at h
          · exact h
        obtain ⟨a, hfa, hsa⟩ := hex
        obtain ⟨db2, hrun, hreq⟩ := start_break_some
          { db with
            requests := updateFirst (pendingMatch aid uid ty)
              (fun x => { x with
                status := ApprovalStatus.APPROVED,
                resolved_at := some now, resolver_id := some rid,
                resolver_note := some note }) db.requests }
          aid uid r.payload a hfa hsa
        rw [hrun]
        exact ⟨rfl, hreq⟩
      · rw [Bool.eq_false_iff.mpr hap]
        simp only [Bool.false_eq_true, if_false]
        exact ⟨trivial, trivial⟩
    refine ⟨main.1, ?_, ?_⟩
    · rw [main.2]
      exact hfound
    · intro approved2 rid2 note2 now2
      set X := (resolve_break_request db aid uid ty approved rid note now).1 with hX
      have hnone2 : X.requests.find? (pendingMatch aid uid ty) = none := by
        rw [hX, main.2]
        exact hgone
      unfold resolve_break_request
      rw [hnone2]

/-- Witness for C8: one admin denies a concrete PENDING lunch request (the
assignment is still ACTIVE), then a second resolution attempt fails. -/
def resolveDB2 : DB :=
  { resolveDB with
    assignments := [wAsg 1 2 .ACTIVE "Tool QC"],
    requests := [
      { id := 1, user_id := 2, assignment_id := 1,
        type := ApprovalType.LUNCH60, requested_at := 0,
        payload := { reason := "x", duration_minutes := some 60 },
        status := ApprovalStatus.PENDING,
        resolved_at := none, resolver_id := none, resolver_note := none }] }

theorem resolve_break_request_correct_witness :
    (resolve_break_request resolveDB2 1 2 ApprovalType.LUNCH60 false 9 "no" 500).2.1 = true
      ∧ (resolve_break_request resolveDB2 1 2 ApprovalType.LUNCH60 false 9 "no" 500).1.requests.find?
          (fun x => x.id == 1)
          = some
            { id := 1, user_id := 2, assignment_id := 1,
              type := ApprovalType.LUNCH60, requested_at := 0,
              payload := { reason := "x", duration_minutes := some 60 },
              status := ApprovalStatus.DENIED,
              resolved_at := some 500, resolver_id := some 9,
              resolver_note := some "no" }
      ∧ resolve_break_request
          (resolve_break_request resolveDB2 1 2 ApprovalType.LUNCH60 false 9 "no" 500).1
          1 2 ApprovalType.LUNCH60 true 7 "again" 600
        = ((resolve_break_request resolveDB2 1 2 ApprovalType.LUNCH60 false 9 "no" 500).1,
            false, "Approval request not found or already processed") := by
  have h := (resolve_break_request_correct resolveDB2 1 2 ApprovalType.LUNCH60
      false 9 "no" 500).2
    { id := 1, user_id := 2, assignment_id := 1,
      type := ApprovalType.LUNCH60, requested_at := 0,
      payload := { reason := "x", duration_minutes := some 60 },
      status := ApprovalStatus.PENDING,
      resolved_at := none, resolver_id := none, resolver_note := none }
    (by decide) (by decide) (by decide) (Or.inl rfl)
  exact ⟨h.1, by simpa using h.2.1, h.2.2 true 7 "again" 600⟩

/-- assignment_scheduler.AssignmentScheduler.get_reassignment_candidates:
operators joined with an ACTIVE Data Labelling assignment of the hour owned
by someone other than the escalated user.  The SQL join is modelled as a
filter over the user table in row order. -/
def get_reassignment_candidates (db : DB) (assignment : Assignment) : List User :=
  db.users.filter fun u =>
    u.is_operator && db.assignments.any fun x =>
      x.hour_index == assignment.hour_index
        && x.status == AssignmentStatus.ACTIVE
        && x.task_name == "Data Labelling"
        && x.user_id != assignment.user_id
        && x.user_id == u.id

/-- The filter locating the candidate's current Data Labelling assignment
inside `_perform_reassignment`. -/
def candidateAsg (new_assignee : Nat) (original : Assignment) (x : Assignment) : Bool :=
  x.user_id == new_assignee && x.hour_index == original.hour_index
    && x.status == AssignmentStatus.ACTIVE && x.task_name == "Data Labelling"

/-- assignment_scheduler.AssignmentScheduler._perform_reassignment, at the
level of the durable store: convert the candidate's Data Labelling
assignment in place to the escalated task, tagging `covering_for_user_id`;
the status of the candidate's row is deliberately left as it was (the
source keeps it ACTIVE).  The source also assigns
`original_assignment.status = ENDED_EARLY` and `ended_at = now`, but on the
ORM object attached to the caller's session (the one
check_pending_acknowledgments opened), and `db.commit()` commits only the
escalation session; the caller's session is never committed, so that write
is discarded on close and the original row is durably unchanged.  `none`
models returning False before any write. -/
def perform_reassignment (db : DB) (original : Assignment)
    (new_assignee : Nat) (_now : Nat) : Option DB :=
  match db.assignments.find? (candidateAsg new_assignee original) with
  | none => none
  | some current =>
    some { db with
      assignments := updateFirst (fun x => x.id == current.id)
        (fun c => { c with
          task_name := original.task_name,
          template_id := original.template_id,
          params := original.params,
          covering_for_user_id := some original.user_id }) db.assignments }

/-- assignment_scheduler.AssignmentScheduler.escalate_unacknowledged_assignment:
look up the user, reassign to the first candidate when one exists (leaving
the store untouched when the reassignment fails), and append exactly one
`assignment_escalated` audit row. -/
def escalate_unacknowledged_assignment (db : DB) (assignment : Assignment)
    (now : Nat) : DB :=
  match db.users.find? (fun u => u.id == assignment.user_id) with
  | none => db
  | some _user =>
    let candidates := get_reassignment_candidates db assignment
    let db1 : DB := match candidates with
      | [] => db
      | new_assignee :: _ =>
        match perform_reassignment db assignment new_assignee.id now with
        | none => db
        | some dbr => dbr
    { db1 with audit := db1.audit
      ++ [⟨none, "assignment_escalated", some (toString assignment.id)⟩] }

/-- Escalation scenario: user 1 has a PENDING_ACK non-default assignment,
user 2 is the only ACTIVE Data Labeller of the hour. -/
def escDB : DB :=
  { users := [wUser 1 none, wUser 2 none],
    assignments := [wAsg 1 1 .PENDING_ACK "Tool QC",
      wAsg 2 2 .ACTIVE "Data Labelling"],
    requests := [], audit := [], next_assignment_id := 3, next_request_id := 1,
    settings := { assignments_channel_id := some 10, admin_channel_id := some 11,
                  min_on_duty := 3 } }

/-- C1 counterexample: in the one-candidate escalation scenario the
candidate's converted assignment keeps status ACTIVE — it is never set to
COVERING as the claim states (the conversion itself did happen:
`covering_for_user_id` points at the original user). -/
theorem escalate_candidate_stays_active :
    ((escalate_unacknowledged_assignment escDB
          (wAsg 1 1 .PENDING_ACK "Tool QC") 900).assignments.find?
        (fun x => x.id == 2)).map Assignment.status = some AssignmentStatus.ACTIVE
      ∧ ((escalate_unacknowledged_assignment escDB
          (wAsg 1 1 .PENDING_ACK "Tool QC") 900).assignments.find?
        (fun x => x.id == 2)).map Assignment.covering_for_user_id = some (some 1)
      ∧ AssignmentStatus.ACTIVE ≠ AssignmentStatus.COVERING := by
  exact ⟨rfl, rfl, by decide⟩

/-- C1 (amended): escalating a PENDING_ACK non-default assignment aged at
least 10 minutes with exactly one candidate durably converts the
candidate's Data Labelling assignment in place to the escalated task (same
name, template, params) with `covering_for_user_id` set to the original
user — its status remaining ACTIVE, not COVERING — and appends exactly one
audit row of action `assignment_escalated`; the original assignment's row
is durably unchanged, still PENDING_ACK with no `ended_at`, because its
ENDED_EARLY write lands in the caller's session, which never commits. -/
theorem escalate_single_candidate_correct (db : DB) (a : Assignment) (now : Nat)
    (c : User) (ca : Assignment)
    (hids : db.assignments.Pairwise (fun x y => x.id ≠ y.id))
    (hstatus : a.status = AssignmentStatus.PENDING_ACK)
    (_htask : a.task_name ≠ "Data Labelling")
    (_hage : a.created_at + 600 ≤ now)
    (huser : ∃ u, db.users.find? (fun x => x.id == a.user_id) = some u)
    (hfinda : db.assignments.find? (fun x => x.id == a.id) = some a)
    (hcand : get_reassignment_candidates db a = [c])
    (hfindc : db.assignments.find? (candidateAsg c.id a) = some ca) :
    (escalate_unacknowledged_assignment db a now).assignments.find?
        (fun x => x.id == a.id) = some a
      ∧ a.status = AssignmentStatus.PENDING_ACK
      ∧ (escalate_unacknowledged_assignment db a now).assignments.find?
          (fun x => x.id == ca.id)
          = some { ca with
              task_name := a.task_name, template_id := a.template_id,
              params := a.params, covering_for_user_id := some a.user_id }
      ∧ ca.status = AssignmentStatus.ACTIVE
      ∧ (escalate_unacknowledged_assignment db a now).audit
          = db.audit ++ [⟨none, "assignment_escalated", some (toString a.id)⟩] := by
  -- facts about the candidate row
  have hcp : candidateAsg c.id a ca = true := List.find?_some hfindc
  have hca_status : ca.status = AssignmentStatus.ACTIVE := by
    unfold candidateAsg at hcp
    simp only [Bool.and_eq_true, beq_iff_eq] at hcp
    exact hcp.1.2
  have hane : a ≠ ca := by
    intro h
    rw [← h, hstatus] at hca_status
    cases hca_status
  have hamem : a ∈ db.assignments := List.mem_of_find?_eq_some hfinda
  have hcamem : ca ∈ db.assignments := List.mem_of_find?_eq_some hfindc
  have hidne : a.id ≠ ca.id := by
    intro h
    exact hane (eq_of_id_eq_of_pairwise hids hamem hcamem h)
  obtain ⟨u, hu⟩ := huser
  -- run the escalation: only the candidate conversion and the audit row land
  have hperf : perform_reassignment db a c.id now
      = some { db with
          assignments := updateFirst (fun x => x.id == ca.id)
            (fun cc => { cc with
              task_name := a.task_name, template_id := a.template_id,
              params := a.params,
              covering_for_user_id := some a.user_id }) db.assignments } := by
    unfold perform_reassignment
    rw [hfindc]
  have hrun : escalate_unacknowledged_assignment db a now
      = { db with
          assignments := updateFirst (fun x => x.id == ca.id)
            (fun cc => { cc with
              task_name := a.task_name, template_id := a.template_id,
              params := a.params,
              covering_for_user_id := some a.user_id }) db.assignments,
          audit := db.audit
            ++ [⟨none, "assignment_escalated", some (toString a.id)⟩] } := by
    unfold escalate_unacknowledged_assignment
    rw [hu, hcand]
    dsimp only
    rw [hperf]
  rw [hrun]
  refine ⟨?_, hstatus, ?_, hca_status, rfl⟩
  · have hother : ∀ x : Assignment, (fun y : Assignment => y.id == ca.id) x = true →
        (fun y : Assignment => y.id == a.id) x = false
          ∧ (fun y : Assignment => y.id == a.id)
              ({ x with
                task_name := a.task_name, template_id := a.template_id,
                params := a.params,
                covering_for_user_id := some a.user_id } : Assignment) = false := by
      intro x hx
      simp only [beq_iff_eq] at hx ⊢
      constructor <;> simp [hx] <;> omega
    rw [find?_updateFirst_other hother _]
    exact hfinda
  · have hpres2 : ∀ x : Assignment, (fun y : Assignment => y.id == ca.id) x = true →
        (fun y : Assignment => y.id == ca.id)
          ({ x with
            task_name := a.task_name, template_id := a.template_id,
            params := a.params,
            covering_for_user_id := some a.user_id } : Assignment) = true :=
      fun _ hx => hx
    have hfindca : db.assignments.find? (fun x => x.id == ca.id) = some ca :=
      find?_id_of_mem_pairwise hids hcamem
    rw [find?_updateFirst_self hpres2, hfindca]
    rfl

/-- Witness for C1: applying the amended escalation theorem at the concrete
one-candidate scenario — the original row is untouched, the candidate row
carries the conversion, one audit entry is appended. -/
theorem escalate_single_candidate_correct_witness :
    (escalate_unacknowledged_assignment escDB
        (wAsg 1 1 .PENDING_ACK "Tool QC") 900).assignments.find?
        (fun x => x.id == 1)
        = some (wAsg 1 1 .PENDING_ACK "Tool QC")
      ∧ (escalate_unacknowledged_assignment escDB
          (wAsg 1 1 .PENDING_ACK "Tool QC") 900).assignments.find?
          (fun x => x.id == 2)
          = some { wAsg 2 2 .ACTIVE "Data Labelling" with
              task_name := "Tool QC", covering_for_user_id := some 1 }
      ∧ (escalate_unacknowledged_assignment escDB
          (wAsg 1 1 .PENDING_ACK "Tool QC") 900).audit
          = [⟨none, "assignment_escalated", some "1"⟩] := by
  have h := escalate_single_candidate_correct escDB
    (wAsg 1 1 .PENDING_ACK "Tool QC") 900 (wUser 2 none)
    (wAsg 2 2 .ACTIVE "Data Labelling")
    (by decide) rfl (by decide) (by decide) ⟨wUser 1 none, by decide⟩
    (by decide) (by decide) (by decide)
  exact ⟨h.1, by simpa using h.2.2.1, by simpa using h.2.2.2.2⟩

/-- C5: the concrete durable outcome of an escalation with a candidate,
evaluated on the store of the one-candidate scenario: the candidate's row
is already converted (it covers user 1 on the escalated task) while the
original assignment is still PENDING_ACK with no `ended_at` — the two
writes the spec calls one atomic unit do not land together, because the
original's ENDED_EARLY update is made on a row of the caller's session,
which is never committed. -/
theorem escalate_partial_transition :
    (escalate_unacknowledged_assignment escDB
        (wAsg 1 1 .PENDING_ACK "Tool QC") 900).assignments.find?
        (fun x => x.id == 1)
        = some (wAsg 1 1 .PENDING_ACK "Tool QC")
      ∧ (wAsg 1 1 .PENDING_ACK "Tool QC").status = AssignmentStatus.PENDING_ACK
      ∧ (wAsg 1 1 .PENDING_ACK "Tool QC").ended_at = none
      ∧ ((escalate_unacknowledged_assignment escDB
          (wAsg 1 1 .PENDING_ACK "Tool QC") 900).assignments.find?
          (fun x => x.id == 2)).map Assignment.task_name = some "Tool QC"
      ∧ ((escalate_unacknowledged_assignment escDB
          (wAsg 1 1 .PENDING_ACK "Tool QC") 900).assignments.find?
          (fun x => x.id == 2)).map Assignment.covering_for_user_id
          = some (some 1) := by
  exact ⟨rfl, rfl, rfl, rfl, rfl⟩

/-- The existence check of the hourly loop: a row with this
(user, shift, hour_index) key is already present.  The session has
autoflush disabled, so the check runs against the committed snapshot. -/
def hasTriple (l : List Assignment) (uid sid h : Nat) : Bool :=
  l.any fun x => x.user_id == uid && x.shift_id == sid && x.hour_index == h

/-- The assignment record the hourly loop creates: the comms lead gets the
distinguished task, everyone else Data Labelling; `ends_at` is the next
hour boundary. -/
def mkHourlyAssignment (nid : Nat) (u : User) (sid h leadId now : Nat) : Assignment :=
  { id := nid, user_id := u.id, shift_id := sid, template_id := none,
    task_name := if u.id == leadId then "Comms Lead" else "Data Labelling",
    params := [], status := AssignmentStatus.PENDING_ACK, hour_index := h,
    started_at := none, ends_at := some (nextHourBoundary now), ended_at := none,
    covering_for_user_id := none, forced := false, created_at := now }

/-- The creation loop of post_hourly_assignments over the on-shift
(user, shift, hour_index) triples, with the autoincrement counter. -/
def buildCreated (snapshot : List Assignment) (leadId now : Nat) :
    List (User × Nat × Nat) → Nat → List Assignment
  | [], _ => []
  | (u, sid, h) :: rest, nid =>
    if hasTriple snapshot u.id sid h then
      buildCreated snapshot leadId now rest nid
    else
      mkHourlyAssignment nid u sid h leadId now
        :: buildCreated snapshot leadId now rest (nid + 1)

/-- Two rows collide on the uq_user_shift_hour key. -/
def sameTriple (x y : Assignment) : Prop :=
  x.user_id = y.user_id ∧ x.shift_id = y.shift_id ∧ x.hour_index = y.hour_index

/-- The uq_user_shift_hour invariant: at most one assignment per
(user, shift, hour_index). -/
def uniqueTriples (l : List Assignment) : Prop :=
  l.Pairwise fun x y => ¬ sameTriple x y

/-- The executable uq_user_shift_hour check the commit is gated on. -/
def triplesOK : List Assignment → Bool
  | [] => true
  | x :: xs =>
    !(xs.any fun y => x.user_id == y.user_id && x.shift_id == y.shift_id
        && x.hour_index == y.hour_index)
      && triplesOK xs

/-- assignment_scheduler.AssignmentScheduler.post_hourly_assignments: skip
when nobody is on shift or the channel is unconfigured, pick the comms
lead, create an assignment for every triple that has none yet, and commit
the batch (the uq_user_shift_hour constraint aborts a batch that would
introduce a duplicate key), updating the lead's `last_comms_lead_at` and
logging once.  `operators` is the on-shift (user, shift id, hour index)
list the trigger computed. -/
def post_hourly_assignments (db : DB) (operators : List (User × Nat × Nat))
    (now : Nat) : DB :=
  if operators.isEmpty then db
  else match db.settings.assignments_channel_id with
  | none => db
  | some _ =>
    match select_comms_lead (operators.map fun op => op.1) with
    | none => db
    | some comms_lead =>
      let assignments_created := buildCreated db.assignments comms_lead.id now
        operators db.next_assignment_id
      if assignments_created.isEmpty then db
      else if !triplesOK (db.assignments ++ assignments_created) then db
      else
        { db with
          assignments := db.assignments ++ assignments_created,
          users := updateFirst (fun x => x.id == comms_lead.id)
            (fun x => { x with last_comms_lead_at := some now }) db.users,
          audit := db.audit ++ [⟨none, "assignments_posted", none⟩],
          next_assignment_id := db.next_assignment_id + assignments_created.length }

theorem hasTriple_iff (l : List Assignment) (uid sid h : Nat) :
    hasTriple l uid sid h = true
      ↔ ∃ x ∈ l, x.user_id = uid ∧ x.shift_id = sid ∧ x.hour_index = h := by
  unfold hasTriple
  simp only [List.any_eq_true, Bool.and_eq_true, beq_iff_eq, and_assoc]

theorem triplesOK_iff : ∀ l : List Assignment, triplesOK l = true ↔ uniqueTriples l := by
  intro l
  induction l with
  | nil => simp [triplesOK, uniqueTriples]
  | cons x xs ih =>
    unfold triplesOK uniqueTriples
    rw [List.pairwise_cons]
    simp only [Bool.and_eq_true, Bool.not_eq_true', List.any_eq_false]
    constructor
    · intro ⟨h1, h2⟩
      refine ⟨?_, (ih.mp h2 : uniqueTriples xs)⟩
      intro y hy hsame
      have := h1 y hy
      unfold sameTriple at hsame
      simp [hsame.1, hsame.2.1, hsame.2.2] at this
    · intro ⟨h1, h2⟩
      refine ⟨?_, ih.mpr h2⟩
      intro y hy
      have := h1 y hy
      unfold sameTriple at this
      by_cases e1 : x.user_id = y.user_id
        <;> by_cases e2 : x.shift_id = y.shift_id
        <;> by_cases e3 : x.hour_index = y.hour_index
        <;> simp [e1, e2, e3] at this ⊢

theorem buildCreated_mem (snapshot : List Assignment) (leadId now : Nat) :
    ∀ (ops : List (User × Nat × Nat)) (nid : Nat) (x : Assignment),
      x ∈ buildCreated snapshot leadId now ops nid →
      hasTriple snapshot x.user_id x.shift_id x.hour_index = false
        ∧ ∃ p ∈ ops, x.user_id = p.1.id ∧ x.shift_id = p.2.1
            ∧ x.hour_index = p.2.2 := by
  intro ops
  induction ops with
  | nil =>
    intro nid x hx
    simp [buildCreated] at hx
  | cons p rest ih =>
    intro nid x hx
    obtain ⟨u, sid, h⟩ := p
    by_cases hht : hasTriple snapshot u.id sid h = true
    · rw [buildCreated, if_pos hht] at hx
      obtain ⟨h1, q, hq, hq2⟩ := ih nid x hx
      exact ⟨h1, q, List.mem_cons_of_mem _ hq, hq2⟩
    · rw [buildCreated, if_neg hht] at hx
      rcases List.mem_cons.mp hx with rfl | hx2
      · refine ⟨?_, (u, sid, h), List.mem_cons_self _ _, rfl, rfl, rfl⟩
        simpa using Bool.eq_false_iff.mpr hht
      · obtain ⟨h1, q, hq, hq2⟩ := ih (nid + 1) x hx2
        exact ⟨h1, q, List.mem_cons_of_mem _ hq, hq2⟩

theorem buildCreated_pairwise (snapshot : List Assignment) (leadId now : Nat) :
    ∀ (ops : List (User × Nat × Nat)) (nid : Nat),
      ops.Pairwise (fun p q => ¬(p.1.id = q.1.id ∧ p.2.1 = q.2.1 ∧ p.2.2 = q.2.2)) →
      uniqueTriples (buildCreated snapshot leadId now ops nid) := by
  intro ops
  induction ops with
  | nil =>
    intro nid _
    simp [buildCreated, uniqueTriples]
  | cons p rest ih =>
    intro nid hops
    obtain ⟨u, sid, h⟩ := p
    rw [List.pairwise_cons] at hops
    by_cases hht : hasTriple snapshot u.id sid h = true
    · rw [buildCreated, if_pos hht]
      exact ih nid hops.2
    · rw [buildCreated, if_neg hht]
      unfold uniqueTriples
      rw [List.pairwise_cons]
      refine ⟨?_, ih (nid + 1) hops.2⟩
      intro y hy hsame
      obtain ⟨_, q, hq, hqu, hqs, hqh⟩ := buildCreated_mem snapshot leadId now
        rest (nid + 1) y hy
      unfold sameTriple at hsame
      unfold mkHourlyAssignment at hsame
      exact hops.1 q hq ⟨by rw [← hqu, ← hsame.1], by rw [← hqs, ← hsame.2.1],
        by rw [← hqh, ← hsame.2.2]⟩

theorem buildCreated_covers (snapshot : List Assignment) (leadId now : Nat) :
    ∀ (ops : List (User × Nat × Nat)) (nid : Nat), ∀ p ∈ ops,
      hasTriple (snapshot ++ buildCreated snapshot leadId now ops nid)
        p.1.id p.2.1 p.2.2 = true := by
  intro ops
  induction ops with
  | nil =>
    intro nid p hp
    simp at hp
  | cons q rest ih =>
    intro nid p hp
    obtain ⟨u, sid, h⟩ := q
    by_cases hht : hasTriple snapshot u.id sid h = true
    · rw [buildCreated, if_pos hht]
      rcases List.mem_cons.mp hp with rfl | hp2
      · obtain ⟨x, hx, hxp⟩ := (hasTriple_iff _ _ _ _).mp hht
        exact (hasTriple_iff _ _ _ _).mpr ⟨x, List.mem_append_left _ hx, hxp⟩
      · exact ih nid p hp2
    · rw [buildCreated, if_neg hht]
      rcases List.mem_cons.mp hp with rfl | hp2
      · refine (hasTriple_iff _ _ _ _).mpr
          ⟨mkHourlyAssignment nid u sid h leadId now, ?_, rfl, rfl, rfl⟩
        exact List.mem_append_right _ (List.mem_cons_self _ _)
      · have := ih (nid + 1) p hp2
        obtain ⟨x, hx, hxp⟩ := (hasTriple_iff _ _ _ _).mp this
        refine (hasTriple_iff _ _ _ _).mpr ⟨x, ?_, hxp⟩
        rcases List.mem_append.mp hx with hx1 | hx2
        · exact List.mem_append_left _ hx1
        · exact List.mem_append_right _ (List.mem_cons_of_mem _ hx2)

theorem buildCreated_nil_iff (snapshot : List Assignment) (leadId now : Nat) :
    ∀ (ops : List (User × Nat × Nat)) (nid : Nat),
      buildCreated snapshot leadId now ops nid = []
        ↔ ∀ p ∈ ops, hasTriple snapshot p.1.id p.2.1 p.2.2 = true := by
  intro ops
  induction ops with
  | nil =>
    intro nid
    simp [buildCreated]
  | cons q rest ih =>
    intro nid
    obtain ⟨u, sid, h⟩ := q
    by_cases hht : hasTriple snapshot u.id sid h = true
    · rw [buildCreated, if_pos hht, ih nid]
      constructor
      · intro hall p hp
        rcases List.mem_cons.mp hp with rfl | hp2
        · exact hht
        · exact hall p hp2
      · intro hall p hp
        exact hall p (List.mem_cons_of_mem _ hp)
    · rw [buildCreated, if_neg hht]
      constructor
      · intro hcontra
        cases hcontra
      · intro hall
        exact absurd (hall (u, sid, h) (List.mem_cons_self _ _)) hht

/-- C2: hourly generation keeps the uq_user_shift_hour invariant and is
idempotent — with the store satisfying at most one assignment per
(user, shift, hour_index) and distinct on-shift triples, one run preserves
the invariant, and a second run over the same triples creates no
assignment: the assignment table is unchanged. -/
theorem post_hourly_idempotent (db : DB) (ops : List (User × Nat × Nat))
    (now now2 : Nat)
    (htrip : uniqueTriples db.assignments)
    (hops : ops.Pairwise (fun p q =>
      ¬(p.1.id = q.1.id ∧ p.2.1 = q.2.1 ∧ p.2.2 = q.2.2))) :
    uniqueTriples (post_hourly_assignments db ops now).assignments
      ∧ (post_hourly_assignments (post_hourly_assignments db ops now) ops now2).assignments
          = (post_hourly_assignments db ops now).assignments := by
  by_cases hemp : ops.isEmpty = true
  · have hrun : ∀ t, post_hourly_assignments db ops t = db := by
      intro t
      unfold post_hourly_assignments
      rw [if_pos hemp]
    simp only [hrun]
    exact ⟨htrip, trivial⟩
  · cases hch : db.settings.assignments_channel_id with
    | none =>
      have hrun : ∀ t, post_hourly_assignments db ops t = db := by
        intro t
        unfold post_hourly_assignments
        rw [if_neg hemp, hch]
      simp only [hrun]
      exact ⟨htrip, trivial⟩
    | some ch =>
      cases hlead : select_comms_lead (ops.map fun op => op.1) with
      | none =>
        have hrun : ∀ t, post_hourly_assignments db ops t = db := by
          intro t
          unfold post_hourly_assignments
          rw [if_neg hemp, hch, hlead]
        simp only [hrun]
        exact ⟨htrip, trivial⟩
      | some lead =>
        by_cases hcre : buildCreated db.assignments lead.id now ops
            db.next_assignment_id = []
        · have hallt : ∀ p ∈ ops, hasTriple db.assignments p.1.id p.2.1 p.2.2 = true :=
            (buildCreated_nil_iff db.assignments lead.id now ops
              db.next_assignment_id).mp hcre
          have hrun : ∀ t, post_hourly_assignments db ops t = db := by
            intro t
            unfold post_hourly_assignments
            rw [if_neg hemp, hch, hlead]
            dsimp only
            rw [(buildCreated_nil_iff db.assignments lead.id t ops
              db.next_assignment_id).mpr hallt]
            simp
          simp only [hrun]
          exact ⟨htrip, trivial⟩
        · set cre := buildCreated db.assignments lead.id now ops
            db.next_assignment_id with hcreDef
          have huniq : uniqueTriples (db.assignments ++ cre) := by
            unfold uniqueTriples
            rw [List.pairwise_append]
            refine ⟨htrip, buildCreated_pairwise db.assignments lead.id now ops
              db.next_assignment_id hops, ?_⟩
            intro x hx y hy hsame
            have hmem := buildCreated_mem db.assignments lead.id now ops
              db.next_assignment_id y (by rw [hcreDef] at hy; exact hy)
            have hht : hasTriple db.assignments y.user_id y.shift_id y.hour_index
                = true :=
              (hasTriple_iff _ _ _ _).mpr ⟨x, hx, hsame.1, hsame.2.1, hsame.2.2⟩
            rw [hmem.1] at hht
            cases hht
          have hguard : triplesOK (db.assignments ++ cre) = true :=
            (triplesOK_iff _).mpr huniq
          have hni : cre.isEmpty = false := by
            rw [hcreDef]
            cases hbc : buildCreated db.assignments lead.id now ops
                db.next_assignment_id with
            | nil => exact absurd hbc hcre
            | cons a b => rfl
          have hrun1 : post_hourly_assignments db ops now
              = { db with
                  assignments := db.assignments ++ cre,
                  users := updateFirst (fun x => x.id == lead.id)
                    (fun x => { x with last_comms_lead_at := some now }) db.users,
                  audit := db.audit ++ [⟨none, "assignments_posted", none⟩],
                  next_assignment_id := db.next_assignment_id + cre.length } := by
            unfold post_hourly_assignments
            rw [if_neg hemp, hch, hlead]
            dsimp only
            rw [← hcreDef, hni]
            simp only [Bool.false_eq_true, if_false, hguard, Bool.not_true]
          have c1 : uniqueTriples (post_hourly_assignments db ops now).assignments := by
            rw [hrun1]
            exact huniq
          refine ⟨c1, ?_⟩
          have hcov : ∀ p ∈ ops,
              hasTriple (db.assignments ++ cre) p.1.id p.2.1 p.2.2 = true := by
            intro p hp
            rw [hcreDef]
            exact buildCreated_covers db.assignments lead.id now ops
              db.next_assignment_id p hp
          have hcre2 : buildCreated (db.assignments ++ cre) lead.id now2 ops
              (db.next_assignment_id + cre.length) = [] :=
            (buildCreated_nil_iff _ _ _ _ _).mpr hcov
          rw [hrun1]
          unfold post_hourly_assignments
          rw [if_neg hemp]
          dsimp only
          rw [hch]
          dsimp only
          rw [hlead]
          dsimp only
          rw [hcre2]
          simp

/-- Witness for C2: two concrete runs over a two-operator hour starting from
an empty assignment table. -/
theorem post_hourly_idempotent_witness :
    uniqueTriples (post_hourly_assignments startDB
        [(wUser 5 none, 1, 1), (wUser 6 (some 3), 1, 1)] 7200).assignments
      ∧ (post_hourly_assignments
          (post_hourly_assignments startDB
            [(wUser 5 none, 1, 1), (wUser 6 (some 3), 1, 1)] 7200)
          [(wUser 5 none, 1, 1), (wUser 6 (some 3), 1, 1)] 10800).assignments
        = (post_hourly_assignments startDB
            [(wUser 5 none, 1, 1), (wUser 6 (some 3), 1, 1)] 7200).assignments := by
  exact post_hourly_idempotent startDB
    [(wUser 5 none, 1, 1), (wUser 6 (some 3), 1, 1)] 7200 10800
    (by simp [startDB, uniqueTriples]) (by simp [wUser])

end Bot
